import Mathlib

/- Formal model of the aggregation layer of the SEA International Trade
Dashboard (src/app.py). The dashboard loads trade-flow records from CSV
files into one immutable table and recomputes grouped sums, KPI values,
top-partner rankings and an OLS trend line whenever the selected country
or year changes. Rows are modelled as a list of records, pandas column
arithmetic as list maps and sums, pandas groupby (on categorical keys,
observed groups, sorted in category order) as a lexicographically sorted
list of observed keys paired with filtered sums, and pandas sort_values
as a deterministic comparison sort: its default quicksort leaves the
relative order of equal keys unspecified, so the model fixes one order
and no theorem relies on which order that is. Monetary values are
modelled as rationals. -/

/- Lexicographic comparison of character lists. Models the ordering pandas
uses for string category labels: astype("category") sorts the unique
string values lexicographically, and groupby returns its groups in that
category order. -/
def lexLe : List Char → List Char → Bool
  | [], _ => true
  | _ :: _, [] => false
  | a :: as, b :: bs => if a < b then true else if b < a then false else lexLe as bs

theorem lexLe_cons_iff (a b : Char) (as bs : List Char) :
    lexLe (a :: as) (b :: bs) = true ↔ a < b ∨ (a = b ∧ lexLe as bs = true) := by
  by_cases h1 : a < b
  · simp [lexLe, h1]
  · by_cases h2 : b < a
    · have hne : a ≠ b := ne_of_gt h2
      simp [lexLe, h1, h2, hne]
    · have heq : a = b := le_antisymm (le_of_not_lt h2) (le_of_not_lt h1)
      simp [lexLe, h1, h2, heq]

theorem lexLe_total : ∀ x y : List Char, lexLe x y = true ∨ lexLe y x = true
  | [], _ => Or.inl rfl
  | _ :: _, [] => Or.inr rfl
  | a :: as, b :: bs => by
    rcases lt_trichotomy a b with h | h | h
    · exact Or.inl ((lexLe_cons_iff a b as bs).mpr (Or.inl h))
    · subst h
      rcases lexLe_total as bs with ih | ih
      · exact Or.inl ((lexLe_cons_iff a a as bs).mpr (Or.inr ⟨rfl, ih⟩))
      · exact Or.inr ((lexLe_cons_iff a a bs as).mpr (Or.inr ⟨rfl, ih⟩))
    · exact Or.inr ((lexLe_cons_iff b a bs as).mpr (Or.inl h))

theorem lexLe_trans : ∀ x y z : List Char,
    lexLe x y = true → lexLe y z = true → lexLe x z = true
  | [], _, _, _, _ => rfl
  | _ :: _, [], _, h, _ => by simp [lexLe] at h
  | _ :: _, _ :: _, [], _, h => by simp [lexLe] at h
  | a :: as, b :: bs, c :: cs, hxy, hyz => by
    rw [lexLe_cons_iff] at hxy hyz ⊢
    rcases hxy with h | ⟨rfl, h⟩
    · rcases hyz with h2 | ⟨rfl, h2⟩
      · exact Or.inl (lt_trans h h2)
      · exact Or.inl h
    · rcases hyz with h2 | ⟨rfl, h2⟩
      · exact Or.inl h2
      · exact Or.inr ⟨rfl, lexLe_trans as bs cs h h2⟩

theorem lexLe_antisymm : ∀ x y : List Char,
    lexLe x y = true → lexLe y x = true → x = y
  | [], [], _, _ => rfl
  | [], _ :: _, _, h => by simp [lexLe] at h
  | _ :: _, [], h, _ => by simp [lexLe] at h
  | a :: as, b :: bs, hxy, hyx => by
    rw [lexLe_cons_iff] at hxy hyx
    rcases hxy with h | ⟨rfl, h⟩
    · rcases hyx with h2 | ⟨heq, h2⟩
      · exact absurd h2 (asymm h)
      · rw [heq] at h
        exact absurd h (lt_irrefl _)
    · rcases hyx with h2 | ⟨_, h2⟩
      · exact absurd h2 (lt_irrefl _)
      · rw [lexLe_antisymm as bs h h2]

/- Lexicographic order on strings, through their character data. -/
def strLe (a b : String) : Bool := lexLe a.data b.data

theorem strLe_total (a b : String) : strLe a b = true ∨ strLe b a = true :=
  lexLe_total a.data b.data

theorem strLe_trans (a b c : String) :
    strLe a b = true → strLe b c = true → strLe a c = true :=
  lexLe_trans a.data b.data c.data

theorem strLe_antisymm (a b : String) :
    strLe a b = true → strLe b a = true → a = b := by
  intro h1 h2
  cases a with
  | mk da =>
    cases b with
    | mk db =>
      have : da = db := lexLe_antisymm da db h1 h2
      rw [this]

/- Insertion, keeping an element before the first entry it compares
less-or-equal to. Used as a deterministic model of sorting a data
frame; where the source sort leaves the order of equal keys
unspecified, this model fixes one order without claiming the program
guarantees it. -/
def insertLe {α : Type} (le : α → α → Bool) (x : α) : List α → List α
  | [] => [x]
  | y :: ys => if le x y then x :: y :: ys else y :: insertLe le x ys

def sortLe {α : Type} (le : α → α → Bool) : List α → List α
  | [] => []
  | x :: xs => insertLe le x (sortLe le xs)

theorem insertLe_perm {α : Type} (le : α → α → Bool) (x : α) (l : List α) :
    (insertLe le x l).Perm (x :: l) := by
  induction l with
  | nil => exact List.Perm.refl [x]
  | cons y ys ih =>
    by_cases h : le x y = true
    · rw [show insertLe le x (y :: ys) = x :: y :: ys from by simp [insertLe, h]]
    · rw [show insertLe le x (y :: ys) = y :: insertLe le x ys from by simp [insertLe, h]]
      exact (ih.cons y).trans (List.Perm.swap x y ys)

theorem sortLe_perm {α : Type} (le : α → α → Bool) (l : List α) :
    (sortLe le l).Perm l := by
  induction l with
  | nil => exact List.Perm.refl []
  | cons x xs ih => exact (insertLe_perm le x (sortLe le xs)).trans (ih.cons x)

theorem mem_sortLe {α : Type} (le : α → α → Bool) (l : List α) (a : α) :
    a ∈ sortLe le l ↔ a ∈ l :=
  (sortLe_perm le l).mem_iff

theorem pairwise_insertLe {α : Type} (le : α → α → Bool)
    (htot : ∀ a b, le a b = true ∨ le b a = true)
    (htrans : ∀ a b c, le a b = true → le b c = true → le a c = true)
    (x : α) (l : List α) (hl : l.Pairwise (fun a b => le a b = true)) :
    (insertLe le x l).Pairwise (fun a b => le a b = true) := by
  induction l with
  | nil => simp [insertLe]
  | cons y ys ih =>
    rcases List.pairwise_cons.mp hl with ⟨hy, hys⟩
    by_cases h : le x y = true
    · rw [show insertLe le x (y :: ys) = x :: y :: ys from by simp [insertLe, h]]
      refine List.pairwise_cons.mpr ⟨?_, hl⟩
      intro b hb
      rcases List.mem_cons.mp hb with rfl | hb
      · exact h
      · exact htrans x y b h (hy b hb)
    · rw [show insertLe le x (y :: ys) = y :: insertLe le x ys from by simp [insertLe, h]]
      refine List.pairwise_cons.mpr ⟨?_, ih hys⟩
      intro b hb
      have hb2 := (insertLe_perm le x ys).mem_iff.mp hb
      rcases List.mem_cons.mp hb2 with rfl | hb3
      · rcases htot y b with hh | hh
        · exact hh
        · exact absurd hh h
      · exact hy b hb3

theorem pairwise_sortLe {α : Type} (le : α → α → Bool)
    (htot : ∀ a b, le a b = true ∨ le b a = true)
    (htrans : ∀ a b c, le a b = true → le b c = true → le a c = true)
    (l : List α) :
    (sortLe le l).Pairwise (fun a b => le a b = true) := by
  induction l with
  | nil => simp [sortLe]
  | cons x xs ih => exact pairwise_insertLe le htot htrans x (sortLe le xs) ih

/- Descending comparison by a rational key, for modelling
sort_values(..., ascending=False); the resulting tie order is the
model's determinization, not a guarantee of the source sort. -/
def leDescBy {α : Type} (key : α → Rat) (a b : α) : Bool := decide (key b ≤ key a)

theorem leDescBy_total {α : Type} (key : α → Rat) (a b : α) :
    leDescBy key a b = true ∨ leDescBy key b a = true := by
  unfold leDescBy
  rcases le_total (key a) (key b) with h | h
  · exact Or.inr (decide_eq_true h)
  · exact Or.inl (decide_eq_true h)

theorem leDescBy_trans {α : Type} (key : α → Rat) (a b c : α) :
    leDescBy key a b = true → leDescBy key b c = true → leDescBy key a c = true := by
  unfold leDescBy
  intro h1 h2
  exact decide_eq_true (le_trans (of_decide_eq_true h2) (of_decide_eq_true h1))

theorem sum_map_add {α : Type} (l : List α) (f g : α → Rat) :
    (l.map (fun a => f a + g a)).sum = (l.map f).sum + (l.map g).sum := by
  induction l with
  | nil => simp
  | cons x t ih =>
    simp only [List.map_cons, List.sum_cons, ih]
    ring

theorem sum_map_sub {α : Type} (l : List α) (f g : α → Rat) :
    (l.map (fun a => f a - g a)).sum = (l.map f).sum - (l.map g).sum := by
  induction l with
  | nil => simp
  | cons x t ih =>
    simp only [List.map_cons, List.sum_cons, ih]
    ring

/- A loaded trade record: one row of the cleaned sea_data table, after the
loader renames the columns (app.py lines 29-32) and coerces year to an
integer. Monetary amounts are modelled as rationals. -/
structure TradeRecord where
  country : String
  country_code : String
  partner_name : String
  partner_name_code : String
  year : Int
  export_USD : Rat
  import_USD : Rat
  trade_balance_USD : Rat
deriving DecidableEq

/- The exact (country == c) & (year == y) row predicate used by every
per-selection callback in app.py. -/
def matchCY (c : String) (y : Int) (r : TradeRecord) : Bool :=
  decide (r.country = c) && decide (r.year = y)

/- Boolean-mask row selection sea_data[(country == c) & (year == y)]. -/
def filterCY (ds : List TradeRecord) (c : String) (y : Int) : List TradeRecord :=
  ds.filter (matchCY c y)

/- Sum of a numeric column over a data frame, pandas Series.sum. -/
def sumBy (rs : List TradeRecord) (f : TradeRecord → Rat) : Rat := (rs.map f).sum

/- The four KPI values emitted by the kpis callback. -/
structure KPIValues where
  total_trade : Rat
  total_export : Rat
  total_import : Rat
  trade_balance : Rat
deriving DecidableEq

/- Model of the kpis callback (app.py lines 482-490): filter to the exact
(country, year), then total_trade = (export + import).sum(),
total_export = export.sum(), total_import = import.sum(),
trade_balance = (export - import).sum(). -/
def kpis (ds : List TradeRecord) (country : String) (year : Int) : KPIValues :=
  ⟨sumBy (filterCY ds country year) (fun r => r.export_USD + r.import_USD),
   sumBy (filterCY ds country year) (fun r => r.export_USD),
   sumBy (filterCY ds country year) (fun r => r.import_USD),
   sumBy (filterCY ds country year) (fun r => r.export_USD - r.import_USD)⟩

/- One row of the chart_e data table: the five retained source columns
plus the added trade_value column. -/
structure TableRow where
  country : String
  partner_name : String
  year : Int
  export_USD : Rat
  import_USD : Rat
  trade_value : Rat
deriving DecidableEq

/- Model of the update_table callback (app.py lines 500-516): filter to the
exact (country, year), keep five columns, add trade_value = export + import.
Row order of the source selection is preserved. -/
def update_table (ds : List TradeRecord) (country : String) (year : Int) : List TableRow :=
  (filterCY ds country year).map (fun r =>
    ⟨r.country, r.partner_name, r.year, r.export_USD, r.import_USD,
      r.export_USD + r.import_USD⟩)

/-- Claim C1: for every dataset and (country, year) filter, kpis returns
total_export and total_import equal to the sums of export_USD and
import_USD over the matching records, with total_trade equal to
total_export + total_import and trade_balance equal to
total_export - total_import. -/
theorem kpis_algebra (ds : List TradeRecord) (country : String) (year : Int) :
    (kpis ds country year).total_export
        = sumBy (filterCY ds country year) (fun r => r.export_USD)
    ∧ (kpis ds country year).total_import
        = sumBy (filterCY ds country year) (fun r => r.import_USD)
    ∧ (kpis ds country year).total_trade
        = (kpis ds country year).total_export + (kpis ds country year).total_import
    ∧ (kpis ds country year).trade_balance
        = (kpis ds country year).total_export - (kpis ds country year).total_import := by
  refine ⟨rfl, rfl, ?_, ?_⟩
  · show sumBy (filterCY ds country year) (fun r => r.export_USD + r.import_USD) = _
    unfold sumBy
    exact sum_map_add (filterCY ds country year) (fun r => r.export_USD)
      (fun r => r.import_USD)
  · show sumBy (filterCY ds country year) (fun r => r.export_USD - r.import_USD) = _
    unfold sumBy
    exact sum_map_sub (filterCY ds country year) (fun r => r.export_USD)
      (fun r => r.import_USD)

/-- Claim C8: the table produced by update_table has exactly one row per
source record matching the exact (country, year) predicate, each row's
trade_value equals its export_USD + import_USD, and projecting the rows
back to the source columns reproduces the filtered records in their
original order. -/
theorem update_table_spec (ds : List TradeRecord) (country : String) (year : Int) :
    (update_table ds country year).length = ds.countP (matchCY country year)
    ∧ (∀ row ∈ update_table ds country year,
        row.trade_value = row.export_USD + row.import_USD)
    ∧ (update_table ds country year).map
          (fun t => (t.country, t.partner_name, t.year, t.export_USD, t.import_USD))
        = (filterCY ds country year).map
          (fun r => (r.country, r.partner_name, r.year, r.export_USD, r.import_USD)) := by
  refine ⟨?_, ?_, ?_⟩
  · rw [update_table, List.length_map, filterCY]
    exact (ds.countP_eq_length_filter (matchCY country year)).symm
  · intro row hrow
    rcases List.mem_map.mp hrow with ⟨r, _, rfl⟩
    rfl
  · rw [update_table, List.map_map]
    rfl

/- Lookup of a left-merge match: pandas merge(on=key, how="left") pairs a
left row with the first right row carrying the same key. -/
theorem find_map_key {K β : Type} [DecidableEq K] (f : K → β) (name : β → K)
    (hname : ∀ k, name (f k) = k) (p : K) :
    ∀ keys : List K, p ∈ keys →
      (keys.map f).find? (fun s => decide (name s = p)) = some (f p)
  | [], hp => absurd hp (List.not_mem_nil p)
  | k :: ks, hp => by
    by_cases hk : k = p
    · subst hk
      rw [List.map_cons, List.find?_cons_of_pos]
      simp [hname]
    · have hp2 : p ∈ ks := by
        rcases List.mem_cons.mp hp with h | h
        · exact absurd h.symm hk
        · exact h
      rw [List.map_cons, List.find?_cons_of_neg, find_map_key f name hname p ks hp2]
      simp [hname, hk]

/- Observed partner groups of a selection, in the sorted (category) order
pandas groupby returns them. -/
def partnerKeys (rs : List TradeRecord) : List String :=
  sortLe strLe ((rs.map (fun r => r.partner_name)).dedup)

/- One row of a single-column partner aggregation, such as
filt.groupby("partner_name")["export_USD"].sum(). -/
structure PartnerSum where
  partner_name : String
  value : Rat
deriving DecidableEq

def partnerAgg (rs : List TradeRecord) (f : TradeRecord → Rat) : List PartnerSum :=
  (partnerKeys rs).map (fun p =>
    ⟨p, sumBy (rs.filter (fun r => decide (r.partner_name = p))) f⟩)

/- One row of the merged top-partner table of update_top_partners. -/
structure PartnerRow where
  partner_name : String
  total_export : Rat
  total_import : Rat
  total_trade : Rat
deriving DecidableEq

/- The merged partner table of app.py lines 528-537: group export sums,
group import sums, left-merge on partner_name, add total_trade. The
unmatched branch of the merge would put a missing value in pandas; it is
unreachable here because both aggregations share one key list (see
partnerTable_eq). -/
def partnerTable (ds : List TradeRecord) (country : String) (year : Int) :
    List PartnerRow :=
  (partnerAgg (filterCY ds country year) (fun r => r.export_USD)).map (fun e =>
    match (partnerAgg (filterCY ds country year) (fun r => r.import_USD)).find?
        (fun s => decide (s.partner_name = e.partner_name)) with
    | some s => ⟨e.partner_name, e.value, s.value, e.value + s.value⟩
    | none => ⟨e.partner_name, e.value, 0, e.value + 0⟩)

/- Model of the update_top_partners callback (app.py lines 524-538):
sort_values("total_trade", ascending=False).head(10). The source sort
runs with the default kind="quicksort", which guarantees no particular
order among rows with equal total_trade; the stable insertion sort here
is one deterministic refinement of it, and no theorem below depends on
the tie order it picks. -/
def update_top_partners (ds : List TradeRecord) (country : String) (year : Int) :
    List PartnerRow :=
  (sortLe (leDescBy (fun row => row.total_trade)) (partnerTable ds country year)).take 10

/- Specification-level per-partner sums over the filtered selection. -/
def partnerExportSum (ds : List TradeRecord) (c : String) (y : Int) (p : String) : Rat :=
  sumBy ((filterCY ds c y).filter (fun r => decide (r.partner_name = p)))
    (fun r => r.export_USD)

def partnerImportSum (ds : List TradeRecord) (c : String) (y : Int) (p : String) : Rat :=
  sumBy ((filterCY ds c y).filter (fun r => decide (r.partner_name = p)))
    (fun r => r.import_USD)

theorem partnerTable_eq (ds : List TradeRecord) (c : String) (y : Int) :
    partnerTable ds c y = (partnerKeys (filterCY ds c y)).map (fun p =>
      ⟨p, partnerExportSum ds c y p, partnerImportSum ds c y p,
        partnerExportSum ds c y p + partnerImportSum ds c y p⟩) := by
  unfold partnerTable partnerAgg
  rw [List.map_map]
  apply List.map_congr_left
  intro p hp
  simp only [Function.comp_apply]
  rw [find_map_key
    (fun k => (⟨k, sumBy ((filterCY ds c y).filter
      (fun r => decide (r.partner_name = k))) (fun r => r.import_USD)⟩ : PartnerSum))
    (fun s => s.partner_name) (fun _ => rfl) p _ hp]
  rfl

theorem partnerKeys_nodup (rs : List TradeRecord) : (partnerKeys rs).Nodup := by
  rw [partnerKeys]
  exact ((sortLe_perm strLe _).nodup_iff).mpr (List.nodup_dedup _)

theorem mem_partnerKeys (rs : List TradeRecord) (p : String) :
    p ∈ partnerKeys rs ↔ p ∈ rs.map (fun r => r.partner_name) := by
  rw [partnerKeys, mem_sortLe, List.mem_dedup]

/-- Claim C6: a (country, year) filter matching no records makes kpis
return four zeros and makes update_table and update_top_partners return
empty tables; no aggregation fails. -/
theorem empty_filter_spec (ds : List TradeRecord) (country : String) (year : Int)
    (h : filterCY ds country year = []) :
    kpis ds country year = ⟨0, 0, 0, 0⟩
    ∧ update_table ds country year = []
    ∧ update_top_partners ds country year = [] := by
  refine ⟨?_, ?_, ?_⟩
  · simp [kpis, h, sumBy]
  · simp [update_table, h]
  · simp [update_top_partners, partnerTable, partnerAgg, partnerKeys, h, sortLe]

/- Concrete records used to instantiate the theorems on real inputs. -/
def mkRec (c p : String) (y : Int) (e i : Rat) : TradeRecord :=
  ⟨c, c ++ "_code", p, p ++ "_code", y, e, i, e - i⟩

/- The two-record example dataset of the specification: Malaysia trades
with PartnerA (export 100, import 50) and PartnerB (export 200, import
80) in 2020. -/
def exDS : List TradeRecord :=
  [mkRec "Malaysia" "PartnerA" 2020 100 50, mkRec "Malaysia" "PartnerB" 2020 200 80]

def exOne : List TradeRecord := [mkRec "Malaysia" "PartnerA" 2020 100 50]

/-- Witness for claim C8 at a concrete input: the first table row for
(Malaysia, 2020) on exDS carries trade_value = export + import. -/
theorem update_table_spec_witness :
    (⟨"Malaysia", "PartnerA", 2020, 100, 50, 100 + 50⟩ : TableRow).trade_value
      = (⟨"Malaysia", "PartnerA", 2020, 100, 50, 100 + 50⟩ : TableRow).export_USD
        + (⟨"Malaysia", "PartnerA", 2020, 100, 50, 100 + 50⟩ : TableRow).import_USD := by
  refine (update_table_spec exDS "Malaysia" 2020).2.1 _ ?_
  show _ ∈ update_table exDS "Malaysia" 2020
  simp +decide [update_table, filterCY, matchCY, exDS, mkRec]

/-- Witness for claim C6 at a concrete input: the filter (Thailand, 1999)
matches nothing on exDS, and the KPIs and top-partner table degrade to
zeros and emptiness. -/
theorem empty_filter_spec_witness :
    kpis exDS "Thailand" 1999 = ⟨0, 0, 0, 0⟩
    ∧ update_top_partners exDS "Thailand" 1999 = [] :=
  ⟨(empty_filter_spec exDS "Thailand" 1999 (by decide)).1,
   (empty_filter_spec exDS "Thailand" 1999 (by decide)).2.2⟩

/- Group-key order of groupby(["country", "year"]): country category
(lexicographic) order first, then ascending year. -/
def cyLe (a b : String × Int) : Bool :=
  if a.1 = b.1 then decide (a.2 ≤ b.2) else strLe a.1 b.1

theorem cyLe_total (a b : String × Int) : cyLe a b = true ∨ cyLe b a = true := by
  unfold cyLe
  by_cases h : a.1 = b.1
  · rw [if_pos h, if_pos h.symm]
    rcases Int.le_total a.2 b.2 with h2 | h2
    · exact Or.inl (decide_eq_true h2)
    · exact Or.inr (decide_eq_true h2)
  · rw [if_neg h, if_neg (fun hh => h hh.symm)]
    exact strLe_total a.1 b.1

theorem cyLe_trans (a b c : String × Int) :
    cyLe a b = true → cyLe b c = true → cyLe a c = true := by
  intro h1 h2
  unfold cyLe at h1 h2 ⊢
  by_cases hab : a.1 = b.1 <;> by_cases hbc : b.1 = c.1
  · rw [if_pos hab] at h1
    rw [if_pos hbc] at h2
    rw [if_pos (hab.trans hbc)]
    exact decide_eq_true (le_trans (of_decide_eq_true h1) (of_decide_eq_true h2))
  · rw [if_pos hab] at h1
    rw [if_neg hbc] at h2
    rw [if_neg (show ¬ a.1 = c.1 from fun h => hbc (hab.symm.trans h)), hab]
    exact h2
  · rw [if_neg hab] at h1
    rw [if_pos hbc] at h2
    rw [if_neg (show ¬ a.1 = c.1 from fun h => hab (h.trans hbc.symm)), ← hbc]
    exact h1
  · rw [if_neg hab] at h1
    rw [if_neg hbc] at h2
    by_cases hac : a.1 = c.1
    · exfalso
      apply hab
      apply strLe_antisymm a.1 b.1 h1
      rw [← hac] at h2
      exact h2
    · rw [if_neg hac]
      exact strLe_trans a.1 b.1 c.1 h1 h2

/- Observed (country, year) groups of a selection, in pandas group order. -/
def cyKeys (rs : List TradeRecord) : List (String × Int) :=
  sortLe cyLe ((rs.map (fun r => (r.country, r.year))).dedup)

/- One row of a single-column (country, year) aggregation. -/
structure CYSum where
  country : String
  year : Int
  value : Rat
deriving DecidableEq

def cyAgg (rs : List TradeRecord) (f : TradeRecord → Rat) : List CYSum :=
  (cyKeys rs).map (fun k => ⟨k.1, k.2, sumBy (filterCY rs k.1 k.2) f⟩)

/- The fixed display priority of the four SEA countries (app.py line 48). -/
def priorityCountries : List String := ["Malaysia", "Indonesia", "Singapore", "Thailand"]

/- Row selection sea_data[country.isin(priority)] of chart_a: only the
four priority countries are retained. -/
def chartAFilter (ds : List TradeRecord) : List TradeRecord :=
  ds.filter (fun r => decide (r.country ∈ priorityCountries))

/- One row of the merged chart_a data frame: country, year, the summed
trade_value and the merged import_USD column. -/
structure CYRow where
  country : String
  year : Int
  trade_value : Rat
  import_USD : Rat
deriving DecidableEq

/- Model of the chart_a callback data frame (app.py lines 360-370): group
export sums over the priority-country selection, group import sums over
the same selection, left-merge on (country, year), then
trade_value += import_USD. The unmatched merge branch is unreachable
because both aggregations share one key list (see chart_a_eq). -/
def chart_a (ds : List TradeRecord) : List CYRow :=
  (cyAgg (chartAFilter ds) (fun r => r.export_USD)).map (fun e =>
    match (cyAgg (chartAFilter ds) (fun r => r.import_USD)).find?
        (fun s => decide ((s.country, s.year) = (e.country, e.year))) with
    | some s => ⟨e.country, e.year, e.value + s.value, s.value⟩
    | none => ⟨e.country, e.year, e.value + 0, 0⟩)

def cyExportSum (ds : List TradeRecord) (k : String × Int) : Rat :=
  sumBy (filterCY (chartAFilter ds) k.1 k.2) (fun r => r.export_USD)

def cyImportSum (ds : List TradeRecord) (k : String × Int) : Rat :=
  sumBy (filterCY (chartAFilter ds) k.1 k.2) (fun r => r.import_USD)

theorem chart_a_eq (ds : List TradeRecord) :
    chart_a ds = (cyKeys (chartAFilter ds)).map (fun k =>
      ⟨k.1, k.2, cyExportSum ds k + cyImportSum ds k, cyImportSum ds k⟩) := by
  unfold chart_a cyAgg
  rw [List.map_map]
  apply List.map_congr_left
  intro k hk
  simp only [Function.comp_apply]
  rw [find_map_key (fun k2 : String × Int =>
      (⟨k2.1, k2.2, sumBy (filterCY (chartAFilter ds) k2.1 k2.2)
        (fun r => r.import_USD)⟩ : CYSum))
    (fun s => (s.country, s.year)) (fun _ => rfl) k _ hk]
  rfl

/- A dataset containing two priority countries (in an order that exposes
the output ordering) and one non-priority country. -/
def exMixed : List TradeRecord :=
  [mkRec "Malaysia" "PartnerA" 2020 1 2, mkRec "Indonesia" "PartnerA" 2020 3 4,
   mkRec "Vietnam" "PartnerA" 2020 5 6]

/-- Counterexample to claim C5 as stated: on exMixed the chart_a rows are
ordered Indonesia before Malaysia (category order), not by the priority
list Malaysia-first, and the (Vietnam, 2020) group present in the
dataset yields no row at all. -/
theorem chart_a_counterexample :
    (chart_a exMixed).map (fun row => row.country) = ["Indonesia", "Malaysia"]
    ∧ "Vietnam" ∈ exMixed.map (fun r => r.country)
    ∧ "Vietnam" ∉ (chart_a exMixed).map (fun row => row.country)
    ∧ (chart_a exMixed).map (fun row => row.country) ≠ ["Malaysia", "Indonesia"] := by
  have hmap : (chart_a exMixed).map (fun row => row.country)
      = (cyKeys (chartAFilter exMixed)).map (fun k => k.1) := by
    rw [chart_a_eq, List.map_map]
    rfl
  have hkeys : (cyKeys (chartAFilter exMixed)).map (fun k => k.1)
      = ["Indonesia", "Malaysia"] := by decide
  refine ⟨hmap.trans hkeys, by decide, ?_, ?_⟩
  · rw [hmap, hkeys]
    decide
  · rw [hmap, hkeys]
    decide

/-- Claim C5 (amended): chart_a returns one row per observed
(country, year) group whose country is among the four priority countries
(all other countries are excluded), with trade_value equal to the
group's summed export plus summed import; the rows are ordered by
country category (lexicographic) order and then ascending year, not by
the priority list. -/
theorem chart_a_spec (ds : List TradeRecord) :
    ((chart_a ds).map (fun row => (row.country, row.year))).Pairwise
        (fun a b => cyLe a b = true)
    ∧ ((chart_a ds).map (fun row => (row.country, row.year))).Nodup
    ∧ (∀ c y, (c, y) ∈ (chart_a ds).map (fun row => (row.country, row.year)) ↔
        ∃ r ∈ ds, r.country = c ∧ r.year = y ∧ c ∈ priorityCountries)
    ∧ (∀ row ∈ chart_a ds,
        row.trade_value = cyExportSum ds (row.country, row.year)
          + cyImportSum ds (row.country, row.year)
        ∧ row.import_USD = cyImportSum ds (row.country, row.year)) := by
  have hmap : (chart_a ds).map (fun row => (row.country, row.year))
      = cyKeys (chartAFilter ds) := by
    rw [chart_a_eq, List.map_map]
    exact List.map_id _
  refine ⟨?_, ?_, ?_, ?_⟩
  · rw [hmap]
    exact pairwise_sortLe cyLe cyLe_total cyLe_trans _
  · rw [hmap]
    exact ((sortLe_perm cyLe _).nodup_iff).mpr (List.nodup_dedup _)
  · intro c y
    rw [hmap, cyKeys, mem_sortLe, List.mem_dedup, List.mem_map]
    constructor
    · rintro ⟨r, hr, heq⟩
      rcases List.mem_filter.mp hr with ⟨hds, hprio⟩
      have h1 : r.country = c := congrArg Prod.fst heq
      have h2 : r.year = y := congrArg Prod.snd heq
      refine ⟨r, hds, h1, h2, ?_⟩
      rw [← h1]
      exact of_decide_eq_true hprio
    · rintro ⟨r, hds, h1, h2, hcp⟩
      refine ⟨r, List.mem_filter.mpr ⟨hds, decide_eq_true ?_⟩, by rw [h1, h2]⟩
      rw [h1]
      exact hcp
  · intro row hrow
    rw [chart_a_eq] at hrow
    rcases List.mem_map.mp hrow with ⟨k, _, rfl⟩
    exact ⟨rfl, rfl⟩

/- The priority filter absorbs into an exact-country filter for a
priority country. -/
theorem filterCY_chartAFilter (ds : List TradeRecord) (c : String) (y : Int)
    (hc : c ∈ priorityCountries) :
    filterCY (chartAFilter ds) c y = filterCY ds c y := by
  unfold filterCY chartAFilter
  rw [List.filter_filter]
  apply List.filter_congr
  intro r _
  by_cases hm : matchCY c y r = true
  · have hcr : r.country = c := of_decide_eq_true ((Bool.and_eq_true _ _).mp hm).1
    rw [hm]
    simp [hcr, hc]
  · rw [Bool.not_eq_true] at hm
    rw [hm]
    simp

/-- Claim C7: every chart_a row's trade_value, produced by the two-step
method (sum exports per group, separately sum imports per group, merge,
add), equals a naive full scan that sums export_USD + import_USD record
by record over the records of that row's (country, year) pair. -/
theorem chart_a_refines_scan (ds : List TradeRecord) :
    ∀ row ∈ chart_a ds,
      row.trade_value
        = sumBy (filterCY ds row.country row.year)
            (fun r => r.export_USD + r.import_USD) := by
  intro row hrow
  rw [chart_a_eq] at hrow
  rcases List.mem_map.mp hrow with ⟨k, hk, rfl⟩
  show cyExportSum ds k + cyImportSum ds k = _
  have hk2 : k ∈ (chartAFilter ds).map (fun r => (r.country, r.year)) := by
    rw [cyKeys, mem_sortLe, List.mem_dedup] at hk
    exact hk
  rcases List.mem_map.mp hk2 with ⟨r, hr, hkey⟩
  rcases List.mem_filter.mp hr with ⟨_, hprio⟩
  have hc : r.country = k.1 := congrArg Prod.fst hkey
  have hprio2 : k.1 ∈ priorityCountries := by
    rw [← hc]
    exact of_decide_eq_true hprio
  unfold cyExportSum cyImportSum sumBy
  rw [filterCY_chartAFilter ds k.1 k.2 hprio2, ← sum_map_add]

/-- Witness for claim C7 at a concrete input: the single chart_a row of
exOne reports trade_value 150 = the naive scan of 100 + 50. -/
theorem chart_a_refines_scan_witness :
    (⟨"Malaysia", 2020, 150, 50⟩ : CYRow).trade_value
      = sumBy (filterCY exOne "Malaysia" 2020)
          (fun r => r.export_USD + r.import_USD) := by
  refine chart_a_refines_scan exOne ⟨"Malaysia", 2020, 150, 50⟩ ?_
  have hone : chart_a exOne = [⟨"Malaysia", 2020, 150, 50⟩] := by
    rw [chart_a_eq]
    norm_num [cyKeys, cyExportSum, cyImportSum, chartAFilter, priorityCountries,
      filterCY, matchCY, exOne, mkRec, sumBy, sortLe, insertLe]
  rw [hone]
  exact List.mem_singleton_self _

/-- Witness for claim C5 (amended) at a concrete input: on exMixed the
key (Malaysia, 2020) is listed because a Malaysia record exists, via the
membership characterisation. -/
theorem chart_a_spec_witness :
    ("Malaysia", (2020 : Int))
      ∈ (chart_a exMixed).map (fun row => (row.country, row.year)) :=
  ((chart_a_spec exMixed).2.2.1 "Malaysia" 2020).mpr
    ⟨mkRec "Malaysia" "PartnerA" 2020 1 2,
      by unfold exMixed; exact List.mem_cons_self _ _, rfl, rfl, by decide⟩

/- Minimum and maximum of a pandas Series, Series.min() / Series.max();
a junk 0 on an empty column (chart_d only evaluates them on selections
with at least 2 rows). -/
def listMin : List Rat → Rat
  | [] => 0
  | x :: xs => xs.foldl min x

def listMax : List Rat → Rat
  | [] => 0
  | x :: xs => xs.foldl max x

/- Model of np.linspace(lo, hi, num): num samples with step
(hi - lo) / (num - 1); in exact arithmetic the last sample equals hi. -/
def linspace (lo hi : Rat) (num : Nat) : List Rat :=
  (List.range num).map (fun i : Nat => lo + (hi - lo) * (i : Rat) / ((num : Rat) - 1))

/- The OLS fit line added by chart_d: coefficients and the sampled
trace. -/
structure FitLine where
  slope : Rat
  intercept : Rat
  xs : List Rat
  ys : List Rat
deriving DecidableEq

/- Model of np.polyfit(x, y, 1): the degree-1 least-squares coefficients
in closed normal-equation form. numpy is total here; in the
rank-deficient case (all x equal) it still returns finite coefficients,
emitting only a RankWarning, which the total rational division mirrors. -/
def polyfitSlope (df : List TradeRecord) : Rat :=
  ((df.length : Rat) * sumBy df (fun r => r.export_USD * r.import_USD)
      - sumBy df (fun r => r.export_USD) * sumBy df (fun r => r.import_USD))
    / ((df.length : Rat) * sumBy df (fun r => r.export_USD * r.export_USD)
      - sumBy df (fun r => r.export_USD) * sumBy df (fun r => r.export_USD))

def polyfitIntercept (df : List TradeRecord) : Rat :=
  (sumBy df (fun r => r.import_USD)
      - polyfitSlope df * sumBy df (fun r => r.export_USD))
    / (df.length : Rat)

/- Model of the OLS-fit branch of the chart_d callback (app.py lines
459-469): on the exact (country, year) selection, if at least 2 rows
match, fit y = b1*x + b0 by np.polyfit and sample it on
np.linspace(x.min(), x.max(), 100); otherwise no fit line is drawn. The
scatter points themselves are the raw filtered rows (see update_table). -/
def chart_d (ds : List TradeRecord) (country : String) (year : Int) : Option FitLine :=
  if 2 ≤ (filterCY ds country year).length then
    some ⟨polyfitSlope (filterCY ds country year),
      polyfitIntercept (filterCY ds country year),
      linspace (listMin ((filterCY ds country year).map (fun r => r.export_USD)))
        (listMax ((filterCY ds country year).map (fun r => r.export_USD))) 100,
      (linspace (listMin ((filterCY ds country year).map (fun r => r.export_USD)))
        (listMax ((filterCY ds country year).map (fun r => r.export_USD))) 100).map
        (fun x => polyfitSlope (filterCY ds country year) * x
          + polyfitIntercept (filterCY ds country year))⟩
  else none

/- Modelled from the spec's words: mean of a column. -/
def listMean (xs : List Rat) : Rat := xs.sum / (xs.length : Rat)

/- Modelled from the spec's words: population covariance cov(x, y) of the
(export, import) pairs of a selection. -/
def covXY (df : List TradeRecord) : Rat :=
  listMean (df.map (fun r => r.export_USD * r.import_USD))
    - listMean (df.map (fun r => r.export_USD))
      * listMean (df.map (fun r => r.import_USD))

/- Modelled from the spec's words: population variance var(x) of the
export values of a selection. -/
def varX (df : List TradeRecord) : Rat :=
  listMean (df.map (fun r => r.export_USD * r.export_USD))
    - listMean (df.map (fun r => r.export_USD))
      * listMean (df.map (fun r => r.export_USD))

/- Modelled from the spec's words: slope = cov(x, y) / var(x). -/
def specSlope (df : List TradeRecord) : Rat := covXY df / varX df

/- Modelled from the spec's words: intercept = mean(y) - slope * mean(x). -/
def specIntercept (df : List TradeRecord) : Rat :=
  listMean (df.map (fun r => r.import_USD))
    - specSlope df * listMean (df.map (fun r => r.export_USD))

theorem div_div_same_cancel (a b k : Rat) (hk : k ≠ 0) : a / k / (b / k) = a / b := by
  rcases eq_or_ne b 0 with hb | hb
  · simp [hb]
  · field_simp

theorem covXY_eq (df : List TradeRecord) (hn : (df.length : Rat) ≠ 0) :
    covXY df = ((df.length : Rat) * sumBy df (fun r => r.export_USD * r.import_USD)
      - sumBy df (fun r => r.export_USD) * sumBy df (fun r => r.import_USD))
      / ((df.length : Rat) * (df.length : Rat)) := by
  unfold covXY listMean sumBy
  rw [List.length_map, List.length_map, List.length_map]
  field_simp
  ring

theorem varX_eq (df : List TradeRecord) (hn : (df.length : Rat) ≠ 0) :
    varX df = ((df.length : Rat) * sumBy df (fun r => r.export_USD * r.export_USD)
      - sumBy df (fun r => r.export_USD) * sumBy df (fun r => r.export_USD))
      / ((df.length : Rat) * (df.length : Rat)) := by
  unfold varX listMean sumBy
  rw [List.length_map, List.length_map]
  field_simp
  ring

theorem polyfitSlope_eq_spec (df : List TradeRecord) (hn : (df.length : Rat) ≠ 0) :
    polyfitSlope df = specSlope df := by
  unfold polyfitSlope specSlope
  rw [covXY_eq df hn, varX_eq df hn, div_div_same_cancel _ _ _ (mul_ne_zero hn hn)]

theorem polyfitIntercept_eq_spec (df : List TradeRecord) (hn : (df.length : Rat) ≠ 0) :
    polyfitIntercept df = specIntercept df := by
  unfold polyfitIntercept specIntercept
  rw [polyfitSlope_eq_spec df hn]
  unfold listMean sumBy
  rw [List.length_map, List.length_map]
  field_simp

/-- Claim C4: on a selection with at least 2 matching records, chart_d
draws an OLS fit line with slope = cov(x, y) / var(x) and intercept =
mean(y) - slope * mean(x) over the (export, import) pairs, sampled at
100 evenly spaced points from the minimum to the maximum observed
export; with fewer than 2 matching records the fit line is omitted. -/
theorem chart_d_fit_spec (ds : List TradeRecord) (country : String) (year : Int) :
    (2 ≤ (filterCY ds country year).length →
      ∃ f : FitLine, chart_d ds country year = some f
        ∧ f.slope = specSlope (filterCY ds country year)
        ∧ f.intercept = specIntercept (filterCY ds country year)
        ∧ f.xs = linspace
            (listMin ((filterCY ds country year).map (fun r => r.export_USD)))
            (listMax ((filterCY ds country year).map (fun r => r.export_USD))) 100
        ∧ f.xs.length = 100
        ∧ f.ys = f.xs.map (fun x => f.slope * x + f.intercept))
    ∧ ((filterCY ds country year).length < 2 → chart_d ds country year = none) := by
  constructor
  · intro h
    have hn : ((filterCY ds country year).length : Rat) ≠ 0 := by
      have h0 : (filterCY ds country year).length ≠ 0 := by omega
      exact_mod_cast h0
    unfold chart_d
    rw [if_pos h]
    refine ⟨_, rfl, polyfitSlope_eq_spec _ hn, polyfitIntercept_eq_spec _ hn, rfl, ?_, rfl⟩
    unfold linspace
    rw [List.length_map, List.length_range]
  · intro h
    unfold chart_d
    rw [if_neg (by omega)]

/-- Witness for claim C4 at the spec's example input: on exDS the two
(export, import) points (100, 50) and (200, 80) are colinear and the fit
is slope = 3/10, intercept = 20. -/
theorem chart_d_fit_spec_witness :
    2 ≤ (filterCY exDS "Malaysia" 2020).length
    ∧ ∃ f : FitLine, chart_d exDS "Malaysia" 2020 = some f
      ∧ f.slope = 3 / 10 ∧ f.intercept = 20 := by
  refine ⟨by decide, ?_⟩
  rcases (chart_d_fit_spec exDS "Malaysia" 2020).1 (by decide) with
    ⟨f, hf, hslope, hint, _, _, _⟩
  refine ⟨f, hf, ?_, ?_⟩
  · rw [hslope]
    norm_num [specSlope, covXY, varX, listMean, filterCY, matchCY, exDS, mkRec]
  · rw [hint]
    norm_num [specIntercept, specSlope, covXY, varX, listMean, filterCY, matchCY,
      exDS, mkRec]

theorem foldl_min_all_eq (x : Rat) :
    ∀ l : List Rat, (∀ a ∈ l, a = x) → l.foldl min x = x
  | [], _ => rfl
  | a :: t, h => by
    have ha : a = x := h a (List.mem_cons_self a t)
    rw [List.foldl_cons, ha, min_self]
    exact foldl_min_all_eq x t (fun b hb => h b (List.mem_cons_of_mem a hb))

theorem foldl_max_all_eq (x : Rat) :
    ∀ l : List Rat, (∀ a ∈ l, a = x) → l.foldl max x = x
  | [], _ => rfl
  | a :: t, h => by
    have ha : a = x := h a (List.mem_cons_self a t)
    rw [List.foldl_cons, ha, max_self]
    exact foldl_max_all_eq x t (fun b hb => h b (List.mem_cons_of_mem a hb))

theorem linspace_const (v : Rat) (num : Nat) :
    linspace v v num = List.replicate num v := by
  unfold linspace
  apply List.eq_replicate_iff.mpr
  constructor
  · rw [List.length_map, List.length_range]
  · intro b hb
    rcases List.mem_map.mp hb with ⟨i, _, rfl⟩
    simp

/-- Claim C10: with at least 2 matching records the chart_d fit
computation is well-defined and total: it returns a fit line carrying
100 sample xs and 100 ys, including the degenerate case in which every
matching record has the same export value (so the normal-equations
denominator var(x) is zero), where the sample points collapse onto that
single export value. -/
theorem chart_d_total (ds : List TradeRecord) (country : String) (year : Int)
    (h : 2 ≤ (filterCY ds country year).length) :
    ∃ f : FitLine, chart_d ds country year = some f
      ∧ f.xs.length = 100
      ∧ f.ys.length = 100
      ∧ ((∀ a ∈ (filterCY ds country year).map (fun r => r.export_USD),
            ∀ b ∈ (filterCY ds country year).map (fun r => r.export_USD), a = b) →
          ∃ v, f.xs = List.replicate 100 v
            ∧ f.ys = List.replicate 100 (f.slope * v + f.intercept)) := by
  unfold chart_d
  rw [if_pos h]
  have hlen : (linspace
      (listMin ((filterCY ds country year).map (fun r => r.export_USD)))
      (listMax ((filterCY ds country year).map (fun r => r.export_USD))) 100).length
      = 100 := by
    unfold linspace
    rw [List.length_map, List.length_range]
  refine ⟨_, rfl, hlen, by rw [List.length_map, hlen], ?_⟩
  intro hall
  obtain ⟨x, xs2, hx⟩ : ∃ x xs2,
      (filterCY ds country year).map (fun r => r.export_USD) = x :: xs2 := by
    cases hmap : (filterCY ds country year).map (fun r => r.export_USD) with
    | nil =>
      exfalso
      have hl := congrArg List.length hmap
      rw [List.length_map] at hl
      rw [hl] at h
      exact absurd h (by decide)
    | cons a t => exact ⟨a, t, rfl⟩
  have hxmem : x ∈ (filterCY ds country year).map (fun r => r.export_USD) := by
    rw [hx]
    exact List.mem_cons_self x xs2
  have htail : ∀ a ∈ xs2, a = x := by
    intro a ha
    have ham : a ∈ (filterCY ds country year).map (fun r => r.export_USD) := by
      rw [hx]
      exact List.mem_cons_of_mem x ha
    exact hall a ham x hxmem
  have hmin : listMin ((filterCY ds country year).map (fun r => r.export_USD)) = x := by
    rw [hx]
    exact foldl_min_all_eq x xs2 htail
  have hmax : listMax ((filterCY ds country year).map (fun r => r.export_USD)) = x := by
    rw [hx]
    exact foldl_max_all_eq x xs2 htail
  refine ⟨x, ?_, ?_⟩
  · show linspace
        (listMin ((filterCY ds country year).map (fun r => r.export_USD)))
        (listMax ((filterCY ds country year).map (fun r => r.export_USD))) 100
      = List.replicate 100 x
    rw [hmin, hmax, linspace_const]
  · show (linspace
        (listMin ((filterCY ds country year).map (fun r => r.export_USD)))
        (listMax ((filterCY ds country year).map (fun r => r.export_USD))) 100).map
        (fun t => polyfitSlope (filterCY ds country year) * t
          + polyfitIntercept (filterCY ds country year))
      = List.replicate 100 (polyfitSlope (filterCY ds country year) * x
          + polyfitIntercept (filterCY ds country year))
    rw [hmin, hmax, linspace_const, List.map_replicate]

/- A selection whose two records share one export value: the variance of
x is zero and the normal-equations denominator vanishes. -/
def exFlat : List TradeRecord :=
  [mkRec "Malaysia" "PartnerA" 2020 100 50, mkRec "Malaysia" "PartnerB" 2020 100 80]

/-- Witness for claim C10 at a concrete degenerate input: on exFlat both
exports equal 100, var(x) = 0, and chart_d still returns a fit line with
100 sample points, all at the same x. -/
theorem chart_d_total_witness :
    ∃ f : FitLine, chart_d exFlat "Malaysia" 2020 = some f
      ∧ f.xs.length = 100
      ∧ ∃ v, f.xs = List.replicate 100 v := by
  rcases chart_d_total exFlat "Malaysia" 2020 (by decide) with ⟨f, hf, hlen, _, hrep⟩
  rcases hrep (by decide) with ⟨v, hv, _⟩
  exact ⟨f, hf, hlen, v, hv⟩

/- A raw CSV row after pd.concat, before cleaning: none models a missing
value (NaN) in a field. The year cell carries the outcome of the later
pd.to_numeric(..., errors="coerce") parse: some (some y) is a present
value that parses to the integer y, some none is a present value that
fails numeric parsing (coerced to NaN). String-level numeric parsing is
abstracted; only its success or failure reaches any claim. -/
structure RawRecord where
  country : Option String
  country_code : Option String
  partner_name : Option String
  partner_name_code : Option String
  year : Option (Option Int)
  export_USD : Option Rat
  import_USD : Option Rat
  trade_balance_USD : Option Rat
deriving DecidableEq

/- Row predicate of dropna(axis=0, how="any") (app.py line 26): every
field present. -/
def rowComplete (r : RawRecord) : Bool :=
  r.country.isSome && r.country_code.isSome && r.partner_name.isSome
    && r.partner_name_code.isSome && r.year.isSome && r.export_USD.isSome
    && r.import_USD.isSome && r.trade_balance_USD.isSome

def dropnaRows (rows : List RawRecord) : List RawRecord := rows.filter rowComplete

/- Conversion of one cleaned row into a TradeRecord: succeeds when every
field is present and the year value parses to an integer. -/
def coerceRow (r : RawRecord) : Option TradeRecord :=
  match r.country, r.country_code, r.partner_name, r.partner_name_code,
      r.year, r.export_USD, r.import_USD, r.trade_balance_USD with
  | some c, some cc, some p, some pc, some (some y), some e, some i, some t =>
    some ⟨c, cc, p, pc, y, e, i, t⟩
  | _, _, _, _, _, _, _, _ => none

/- The column cast pd.to_numeric(..., errors="coerce").astype(int) over
the whole year column (app.py line 35): astype(int) raises on any NaN
left behind by the coercion, so a single unparseable year fails the
whole load. -/
def coerceRows : List RawRecord → Option (List TradeRecord)
  | [] => some []
  | r :: rs =>
    match coerceRow r, coerceRows rs with
    | some t, some ts => some (t :: ts)
    | _, _ => none

/- Model of the module-level loader (app.py lines 22-37): concatenate the
rows read from the CSV files (the caller passes them already
concatenated), drop any row containing a missing value, rename the
columns, then coerce the year column to integers. none models the
startup exception raised by astype(int). -/
def loadData (rows : List RawRecord) : Option (List TradeRecord) :=
  coerceRows (dropnaRows rows)

theorem coerceRow_year_none (r : RawRecord) (hc : rowComplete r = true) :
    (coerceRow r = none ↔ r.year = some none)
    ∧ (∀ t : TradeRecord, coerceRow r = some t → r.year = some (some t.year)) := by
  unfold rowComplete at hc
  rw [Bool.and_eq_true, Bool.and_eq_true, Bool.and_eq_true, Bool.and_eq_true,
    Bool.and_eq_true, Bool.and_eq_true, Bool.and_eq_true] at hc
  obtain ⟨⟨⟨⟨⟨⟨⟨h1, h2⟩, h3⟩, h4⟩, h5⟩, h6⟩, h7⟩, h8⟩ := hc
  obtain ⟨cv, hcv⟩ := Option.isSome_iff_exists.mp h1
  obtain ⟨ccv, hccv⟩ := Option.isSome_iff_exists.mp h2
  obtain ⟨pv, hpv⟩ := Option.isSome_iff_exists.mp h3
  obtain ⟨pcv, hpcv⟩ := Option.isSome_iff_exists.mp h4
  obtain ⟨yv, hyv⟩ := Option.isSome_iff_exists.mp h5
  obtain ⟨ev, hev⟩ := Option.isSome_iff_exists.mp h6
  obtain ⟨iv, hiv⟩ := Option.isSome_iff_exists.mp h7
  obtain ⟨tbv, htbv⟩ := Option.isSome_iff_exists.mp h8
  cases yv with
  | none =>
    constructor
    · simp [coerceRow, hcv, hccv, hpv, hpcv, hyv, hev, hiv, htbv]
    · intro t ht
      simp [coerceRow, hcv, hccv, hpv, hpcv, hyv, hev, hiv, htbv] at ht
  | some y =>
    constructor
    · simp [coerceRow, hcv, hccv, hpv, hpcv, hyv, hev, hiv, htbv]
    · intro t ht
      simp [coerceRow, hcv, hccv, hpv, hpcv, hyv, hev, hiv, htbv] at ht
      rw [hyv, ← ht]

/-- Claim C3 (amended): a row with a missing year cell is dropped by the
preceding dropna, but a present year value that fails integer parsing
survives the drop, becomes missing only during the later coercion, and
makes the astype(int) cast - hence the whole load - fail: the loader
fails exactly when some row with no missing field carries an unparseable
year. When the load succeeds, every record has no missing field and an
integer year parsed from its complete raw row. -/
theorem loadData_fail_iff (rows : List RawRecord) :
    (loadData rows = none ↔ ∃ r ∈ rows, rowComplete r = true ∧ r.year = some none)
    ∧ (∀ ds, loadData rows = some ds →
        ∀ rec ∈ ds, ∃ r ∈ rows, rowComplete r = true ∧ r.year = some (some rec.year)) := by
  induction rows with
  | nil =>
    constructor
    · simp [loadData, dropnaRows, coerceRows]
    · intro ds hds rec hrec
      simp only [loadData, dropnaRows, List.filter_nil, coerceRows] at hds
      rw [← Option.some.inj hds] at hrec
      exact absurd hrec (List.not_mem_nil rec)
  | cons r rs ih =>
    by_cases hcomp : rowComplete r = true
    · have hdrop : dropnaRows (r :: rs) = r :: dropnaRows rs := by
        simp [dropnaRows, List.filter_cons, hcomp]
      cases hrow : coerceRow r with
      | none =>
        have hfail : loadData (r :: rs) = none := by
          unfold loadData
          rw [hdrop]
          show coerceRows (r :: dropnaRows rs) = none
          unfold coerceRows
          rw [hrow]
        constructor
        · rw [hfail]
          constructor
          · intro _
            exact ⟨r, List.mem_cons_self r rs, hcomp,
              (coerceRow_year_none r hcomp).1.mp hrow⟩
          · intro _
            rfl
        · intro ds hds
          rw [hfail] at hds
          exact absurd hds (by simp)
      | some t =>
        have hyr := (coerceRow_year_none r hcomp).2 t hrow
        cases hrs : loadData rs with
        | none =>
          have hld : loadData (r :: rs) = none := by
            unfold loadData at hrs ⊢
            rw [hdrop]
            show coerceRows (r :: dropnaRows rs) = none
            unfold coerceRows
            rw [hrow, hrs]
          constructor
          · rw [hld]
            constructor
            · intro _
              rcases ih.1.mp hrs with ⟨r2, hr2, hc2, hy2⟩
              exact ⟨r2, List.mem_cons_of_mem r hr2, hc2, hy2⟩
            · intro _
              rfl
          · intro ds hds
            rw [hld] at hds
            exact absurd hds (by simp)
        | some ts =>
          have hld : loadData (r :: rs) = some (t :: ts) := by
            unfold loadData at hrs ⊢
            rw [hdrop]
            show coerceRows (r :: dropnaRows rs) = some (t :: ts)
            unfold coerceRows
            rw [hrow, hrs]
          constructor
          · rw [hld]
            constructor
            · intro h2
              exact absurd h2 (by simp)
            · rintro ⟨r2, hr2, hc2, hy2⟩
              rcases List.mem_cons.mp hr2 with rfl | hr3
              · rw [hyr] at hy2
                exact absurd (Option.some.inj hy2) (by simp)
              · have hn : loadData rs = none := ih.1.mpr ⟨r2, hr3, hc2, hy2⟩
                rw [hrs] at hn
                exact absurd hn (by simp)
          · intro ds hds rec hrec
            rw [hld] at hds
            rw [← Option.some.inj hds] at hrec
            rcases List.mem_cons.mp hrec with rfl | hrec2
            · exact ⟨r, List.mem_cons_self r rs, hcomp, hyr⟩
            · rcases ih.2 ts hrs rec hrec2 with ⟨r2, hr2, hc2, hy2⟩
              exact ⟨r2, List.mem_cons_of_mem r hr2, hc2, hy2⟩
    · rw [Bool.not_eq_true] at hcomp
      have hld : loadData (r :: rs) = loadData rs := by
        unfold loadData
        have hdrop : dropnaRows (r :: rs) = dropnaRows rs := by
          simp [dropnaRows, List.filter_cons, hcomp]
        rw [hdrop]
      constructor
      · rw [hld]
        constructor
        · intro h2
          rcases ih.1.mp h2 with ⟨r2, hr2, hc2, hy2⟩
          exact ⟨r2, List.mem_cons_of_mem r hr2, hc2, hy2⟩
        · rintro ⟨r2, hr2, hc2, hy2⟩
          rcases List.mem_cons.mp hr2 with rfl | hr3
          · rw [hcomp] at hc2
            exact absurd hc2 (by simp)
          · exact ih.1.mpr ⟨r2, hr3, hc2, hy2⟩
      · intro ds hds rec hrec
        rw [hld] at hds
        rcases ih.2 ds hds rec hrec with ⟨r2, hr2, hc2, hy2⟩
        exact ⟨r2, List.mem_cons_of_mem r hr2, hc2, hy2⟩

/- A raw row whose fields are all present but whose year value does not
parse as a number. -/
def badYearRow : RawRecord :=
  ⟨some "Malaysia", some "MYS", some "China", some "CHN", some none,
    some 100, some 50, some 50⟩

/-- Counterexample to claim C3 as stated: badYearRow has no missing
field, so the preceding drop does not remove it; its year value fails
integer parsing, becomes missing only in the later coercion, and the
astype(int) cast - hence the loader - fails rather than dropping the
row. -/
theorem loader_counterexample :
    rowComplete badYearRow = true ∧ loadData [badYearRow] = none := by
  constructor
  · rfl
  · rfl

/-- Witness for claim C3 (amended) at a concrete input: applying the
failure characterisation to the one-row input [badYearRow] exposes the
complete row with the unparseable year. -/
theorem loadData_fail_iff_witness :
    ∃ r ∈ [badYearRow], rowComplete r = true ∧ r.year = some none :=
  (loadData_fail_iff [badYearRow]).1.mp rfl

/- Model of int(sea_data["year"].max()) (app.py line 54), defined on the
nonempty datasets a successful load produces; 0 is junk for an empty
list, where pandas would raise a fatal startup error instead. -/
def dataMaxYear : List TradeRecord → Int
  | [] => 0
  | r :: rs => (rs.map (fun r2 => r2.year)).foldl max r.year

/- YEAR_MAX = max(int(year.max()), 2022) (app.py lines 54 and 56). -/
def YEAR_MAX (ds : List TradeRecord) : Int := max (dataMaxYear ds) 2022

/- The sidebar defaults (app.py lines 130-146): dropdown value
"Malaysia", slider value YEAR_MAX. -/
def default_country : String := "Malaysia"

def default_year (ds : List TradeRecord) : Int := YEAR_MAX ds

/- Modelled from the claim's words: the dataset's maximum year floored
and ceilinged into the interval [2015, 2022]. -/
def clampedMaxYear (ds : List TradeRecord) : Int :=
  min (max (dataMaxYear ds) 2015) 2022

def exLow : List TradeRecord := [mkRec "Malaysia" "PartnerA" 2016 100 50]

/-- Counterexample to claim C9 as stated: on exLow the dataset maximum
year is 2016; its clamp into [2015, 2022] is 2016, but the slider
default is max(2016, 2022) = 2022. -/
theorem default_year_counterexample :
    dataMaxYear exLow = 2016
    ∧ clampedMaxYear exLow = 2016
    ∧ default_year exLow = 2022
    ∧ default_year exLow ≠ clampedMaxYear exLow := by
  refine ⟨by decide, by decide, by decide, by decide⟩

theorem le_foldl_max (l : List Int) : ∀ a : Int, a ≤ l.foldl max a := by
  induction l with
  | nil =>
    intro a
    exact le_refl a
  | cons b t ih =>
    intro a
    rw [List.foldl_cons]
    exact le_trans (le_max_left a b) (ih (max a b))

theorem mem_le_foldl_max (l : List Int) : ∀ (a : Int), ∀ b ∈ l, b ≤ l.foldl max a := by
  induction l with
  | nil =>
    intro a b hb
    exact absurd hb (List.not_mem_nil b)
  | cons c t ih =>
    intro a b hb
    rw [List.foldl_cons]
    rcases List.mem_cons.mp hb with rfl | hb2
    · exact le_trans (le_max_right a b) (le_foldl_max t (max a b))
    · exact ih (max a c) b hb2

theorem foldl_max_cases (l : List Int) :
    ∀ a : Int, l.foldl max a = a ∨ l.foldl max a ∈ l := by
  induction l with
  | nil =>
    intro a
    exact Or.inl rfl
  | cons b t ih =>
    intro a
    rw [List.foldl_cons]
    rcases ih (max a b) with h | h
    · rcases max_choice a b with h2 | h2
      · exact Or.inl (by rw [h, h2])
      · refine Or.inr ?_
        rw [h, h2]
        exact List.mem_cons_self b t
    · exact Or.inr (List.mem_cons_of_mem b h)

/-- Claim C9 (amended): the default country is Malaysia, the head of the
priority list, and the default year is max(dataset max year, 2022): it
is at least 2022, at least every year in the data, and is either 2022 or
attained by some record - not the clamp of the dataset maximum into
[2015, 2022]. -/
theorem defaults_spec (ds : List TradeRecord) :
    default_country = "Malaysia"
    ∧ priorityCountries.head? = some default_country
    ∧ 2022 ≤ default_year ds
    ∧ (∀ r ∈ ds, r.year ≤ default_year ds)
    ∧ (default_year ds = 2022 ∨ ∃ r ∈ ds, r.year = default_year ds) := by
  refine ⟨rfl, rfl, le_max_right _ _, ?_, ?_⟩
  · intro r hr
    cases ds with
    | nil => exact absurd hr (List.not_mem_nil r)
    | cons r0 rs =>
      show r.year ≤ max (dataMaxYear (r0 :: rs)) 2022
      refine le_trans ?_ (le_max_left _ _)
      show r.year ≤ (rs.map (fun r2 => r2.year)).foldl max r0.year
      rcases List.mem_cons.mp hr with rfl | hr2
      · exact le_foldl_max _ _
      · exact mem_le_foldl_max _ _ _ (List.mem_map_of_mem (fun r2 => r2.year) hr2)
  · cases ds with
    | nil => exact Or.inl rfl
    | cons r0 rs =>
      rcases max_choice (dataMaxYear (r0 :: rs)) 2022 with h | h
      · refine Or.inr ?_
        have h2 := foldl_max_cases (rs.map (fun r2 => r2.year)) r0.year
        rcases h2 with h3 | h3
        · refine ⟨r0, List.mem_cons_self r0 rs, ?_⟩
          show r0.year = max (dataMaxYear (r0 :: rs)) 2022
          rw [h]
          exact h3.symm
        · rcases List.mem_map.mp h3 with ⟨r2, hr2, hy2⟩
          refine ⟨r2, List.mem_cons_of_mem r0 hr2, ?_⟩
          show r2.year = max (dataMaxYear (r0 :: rs)) 2022
          rw [h]
          exact hy2
      · exact Or.inl h

/-- Witness for claim C9 (amended) at a concrete input: on exLow the
default country is Malaysia and the single record's year 2016 is within
the default year. -/
theorem defaults_spec_witness :
    default_country = "Malaysia"
    ∧ (mkRec "Malaysia" "PartnerA" 2016 100 50).year ≤ default_year exLow :=
  ⟨(defaults_spec exLow).1,
   (defaults_spec exLow).2.2.2.1 _ (by unfold exLow; exact List.mem_cons_self _ _)⟩
